import Mathlib

/-!
# PetCare recurrence / timeline core — shallow embedding

Embedding of the scheduling core of the PetCare web application:

* the date helpers `parseDateString` / `formatDateString`
  (src/components/tracking/VaccineTab.tsx, lines 91-102),
* the vaccine recurrence engine `createReminders` (lines 104-160),
* the deworming recurrence engine `createNextReminder` (lines 698-753),
* the reminder reconciliation deletes of `handleUpdate` / `handleDelete`
  (lines 257-265, 307-317, 865-873),
* the timeline aggregation `fetchAllEvents`
  (src/components/tracking/TimelineTab.tsx, lines 70-118),
* the synthetic-initial-weight aggregation `allWeightRecords` of WeightTab.

JavaScript `Date` objects holding a local calendar midnight are modelled as
`CDate` triples (year, month 1-12, day).  The source only ever constructs
dates from nonnegative components and only ever adds months or years, so
year and month shifts are `Nat`s here.  `Date` comparison operators compare
the underlying timestamps; for two local-midnight dates this is exactly
lexicographic comparison of the (year, month, day) triples, which is how
`cdLt` / `cdLe` are defined.  The `while` loops of the source are modelled
as fuel-indexed recursions returning `none` when the fuel is exhausted
before the loop guard turns false, so that a loop that never terminates is
the function that returns `none` at every fuel.
-/

/-- A calendar date: the observable content (`getFullYear`, `getMonth + 1`,
`getDate`) of a JS `Date` at local midnight.  `month` is 1-based (1-12 for
normalized dates), `day` 1-based. -/
structure CDate where
  year : Nat
  month : Nat
  day : Nat
deriving DecidableEq, Repr

/-- Days in a month of the proleptic Gregorian calendar used by JS `Date`.
Out-of-range months are given 31 days; they never arise on normalized
dates. -/
def daysInMonth (y m : Nat) : Nat :=
  if m = 2 then (if (y % 4 = 0 ∧ y % 100 ≠ 0) ∨ y % 400 = 0 then 29 else 28)
  else if m = 4 ∨ m = 6 ∨ m = 9 ∨ m = 11 then 30
  else 31

/-- Day-overflow normalization of JS `Date`: while the day exceeds the
length of the month, subtract the month length and move to the next month.
The fuel argument (instantiated with the day itself, which strictly bounds
the number of iterations since every step removes at least 28 days) makes
the recursion structural; it is never exhausted for day ≥ 1.  Day 0 or
negative days (JS would borrow backwards) never occur in the modelled
code paths. -/
def rollDays : Nat → Nat → Nat → Nat → CDate
  | 0, y, m, d => ⟨y, m, d⟩
  | fuel + 1, y, m, d =>
    if d ≤ daysInMonth y m then ⟨y, m, d⟩
    else if m = 12 then rollDays fuel (y + 1) 1 (d - daysInMonth y m)
    else rollDays fuel y (m + 1) (d - daysInMonth y m)

/-- `new Date(year, monthIdx, day)` of JS for nonnegative arguments:
month indices ≥ 12 roll into the year, then day overflow rolls across
months.  `monthIdx` is 0-based as in JS. -/
def mkJSDate (year monthIdx day : Nat) : CDate :=
  rollDays day (year + monthIdx / 12) (monthIdx % 12 + 1) day

/-- `d.setFullYear(d.getFullYear() + k)`: replace the year, then let JS
renormalize (Feb 29 in a non-leap target year rolls to Mar 1). -/
def addYearsJS (d : CDate) (k : Nat) : CDate :=
  mkJSDate (d.year + k) (d.month - 1) d.day

/-- `d.setMonth(d.getMonth() + k)`: add to the 0-based month index, then
let JS renormalize (month overflow into the year, day overflow across
months, e.g. Jan 31 + 1 month = Mar 2/3). -/
def addMonthsJS (d : CDate) (k : Nat) : CDate :=
  mkJSDate d.year (d.month - 1 + k) d.day

/-- JS `a < b` on two local-midnight `Date`s: timestamp comparison, which
on normalized dates is lexicographic comparison of (year, month, day). -/
def cdLt (a b : CDate) : Bool :=
  a.year < b.year ∨ (a.year = b.year ∧
    (a.month < b.month ∨ (a.month = b.month ∧ a.day < b.day)))

/-- JS `a <= b` on two local-midnight `Date`s, i.e. not `b < a`. -/
def cdLe (a b : CDate) : Bool := !cdLt b a

/-- Weak well-formedness of a date: the invariant actually maintained by
every code path (month in 1-12, day in 1-31).  It is preserved by
`addYearsJS` and `addMonthsJS` and suffices for all loop arguments. -/
def WF (d : CDate) : Prop :=
  1 ≤ d.month ∧ d.month ≤ 12 ∧ 1 ≤ d.day ∧ d.day ≤ 31

instance (d : CDate) : Decidable (WF d) := by unfold WF; infer_instance

/-! ## Reminder records and the two recurrence engines -/

/-- The `type` column of the reminders table, as set by the two engines. -/
inductive RemType where
  | vaccination
  | deworming
deriving DecidableEq, Repr

/-- A row inserted into the `reminders` table.  Titles and descriptions are
kept as character lists so that the `LIKE '%...%'` substring matching of
the reconciliation deletes can be modelled directly. -/
structure Reminder where
  userId : String
  petId : String
  title : List Char
  description : List Char
  reminderDate : CDate
  rtype : RemType
deriving DecidableEq, Repr

/-- Title of an engine-generated vaccine reminder:
`` `Vacuna: ${vaccineType}` ``. -/
def vacTitle (vaccineType : List Char) : List Char :=
  "Vacuna: ".data ++ vaccineType

/-- Description of an engine-generated vaccine reminder:
`` `Recordatorio para aplicar la vacuna ${vaccineType}` `` (note the
lowercase "vacuna"). -/
def vacDesc (vaccineType : List Char) : List Char :=
  "Recordatorio para aplicar la vacuna ".data ++ vaccineType

/-- The reminder row pushed for one occurrence by `createReminders`. -/
def mkVaccineReminder (userId petId : String) (vaccineType : List Char)
    (d : CDate) : Reminder :=
  ⟨userId, petId, vacTitle vaccineType, vacDesc vaccineType, d, .vaccination⟩

/-- Backlog-collapsing loop of `createReminders`
(`while (nextReminderDate < today) nextReminderDate.setFullYear(... + frequencyYears)`),
with explicit fuel; `none` means the guard was still true when the fuel ran
out. -/
def collapseYearsF (today : CDate) (freq : Nat) : Nat → CDate → Option CDate
  | 0, d => if cdLt d today then none else some d
  | fuel + 1, d =>
    if cdLt d today then collapseYearsF today freq fuel (addYearsJS d freq)
    else some d

/-- Emission loop of `createReminders`
(`while (currentReminderDate <= maxDate) { push; currentReminderDate.setFullYear(+freq) }`),
collecting the emitted due dates, with explicit fuel. -/
def emitYearsF (maxDate : CDate) (freq : Nat) : Nat → CDate → Option (List CDate)
  | 0, d => if cdLe d maxDate then none else some []
  | fuel + 1, d =>
    if cdLe d maxDate then
      (emitYearsF maxDate freq fuel (addYearsJS d freq)).map (fun l => d :: l)
    else some []

/-- The vaccine recurrence engine `createReminders` (VaccineTab.tsx 104-160).
`vaccineDate` is the already-parsed calendar date (the source applies
`parseDateString` to the `YYYY-MM-DD` string), `today` the injected clock
(the source takes `new Date()` truncated to local midnight).  Returns the
batch of reminder rows inserted, or `none` if one of the `while` loops does
not finish within the fuel. -/
def createRemindersF (fuel : Nat) (petId userId : String)
    (vaccineType : List Char) (vaccineDate today : CDate)
    (frequencyYears : Nat) : Option (List Reminder) :=
  let next0 := addYearsJS vaccineDate frequencyYears
  let collapsed :=
    if cdLt vaccineDate today then collapseYearsF today frequencyYears fuel next0
    else some next0
  let maxDate := addYearsJS today 10
  collapsed.bind (fun next =>
    (emitYearsF maxDate frequencyYears fuel next).map
      (fun ds => ds.map (fun d => mkVaccineReminder userId petId vaccineType d)))

/-- The two values of the `reminder_frequency_type` column
(`'months'` / `'year'`). -/
inductive FreqUnit where
  | months
  | year
deriving DecidableEq, Repr

/-- One advancement step of `createNextReminder`: `setMonth(+value)` when
the frequency type is `'months'`, `setFullYear(+value)` when `'year'`. -/
def addFreq (ftype : FreqUnit) (v : Nat) (d : CDate) : CDate :=
  match ftype with
  | .months => addMonthsJS d v
  | .year => addYearsJS d v

/-- Title of an engine-generated deworming reminder:
`` `Desparasitación: ${dewormingType}` ``. -/
def dewTitle (dewormingType : List Char) : List Char :=
  "Desparasitación: ".data ++ dewormingType

/-- Description of an engine-generated deworming reminder:
`` `Recordatorio para aplicar la desparasitación ${dewormingType}` ``
(note the lowercase "desparasitación"). -/
def dewDesc (dewormingType : List Char) : List Char :=
  "Recordatorio para aplicar la desparasitación ".data ++ dewormingType

/-- The single reminder row inserted by `createNextReminder`. -/
def mkDewormingReminder (userId petId : String) (dewormingType : List Char)
    (d : CDate) : Reminder :=
  ⟨userId, petId, dewTitle dewormingType, dewDesc dewormingType, d, .deworming⟩

/-- Backlog-collapsing loop of `createNextReminder`, stepping by the
configured unit, with explicit fuel. -/
def collapseFreqF (today : CDate) (ftype : FreqUnit) (v : Nat) :
    Nat → CDate → Option CDate
  | 0, d => if cdLt d today then none else some d
  | fuel + 1, d =>
    if cdLt d today then collapseFreqF today ftype v fuel (addFreq ftype v d)
    else some d

/-- The deworming recurrence engine `createNextReminder`
(VaccineTab.tsx 698-753).  The source inserts at most a single row, guarded
by `nextReminderDate <= maxDate`; the inserted batch is modelled as a list
of length ≤ 1. -/
def createNextReminderF (fuel : Nat) (petId userId : String)
    (dewormingType : List Char) (dewormingDate today : CDate)
    (ftype : FreqUnit) (v : Nat) : Option (List Reminder) :=
  let next0 := addFreq ftype v dewormingDate
  let collapsed :=
    if cdLt dewormingDate today then collapseFreqF today ftype v fuel next0
    else some next0
  let maxDate := addYearsJS today 10
  collapsed.map (fun next =>
    if cdLe next maxDate then [mkDewormingReminder userId petId dewormingType next]
    else [])

/-! ## Arithmetic facts about the date model -/

theorem daysInMonth_ge28 (y m : Nat) : 28 ≤ daysInMonth y m := by
  unfold daysInMonth; split_ifs <;> omega

theorem daysInMonth_le31 (y m : Nat) : daysInMonth y m ≤ 31 := by
  unfold daysInMonth; split_ifs <;> omega

theorem daysInMonth_twelve (y : Nat) : daysInMonth y 12 = 31 := by
  simp [daysInMonth]

theorem rollDays_of_le (fuel y m d : Nat) (h : d ≤ daysInMonth y m) :
    rollDays fuel y m d = ⟨y, m, d⟩ := by
  cases fuel <;> simp [rollDays, h]

/-- Evaluation of `mkJSDate` on the domain the code uses: a month index
0-11 and a day 1-31 normalize with at most one day-overflow roll, which
never crosses a year boundary. -/
theorem mkJSDate_spec (y mi day : Nat) (hmi : mi ≤ 11) (h1 : 1 ≤ day)
    (h31 : day ≤ 31) :
    mkJSDate y mi day =
      if day ≤ daysInMonth y (mi + 1) then ⟨y, mi + 1, day⟩
      else ⟨y, mi + 2, day - daysInMonth y (mi + 1)⟩ := by
  unfold mkJSDate
  have hdiv : mi / 12 = 0 := Nat.div_eq_of_lt (by omega)
  have hmod : mi % 12 = mi := Nat.mod_eq_of_lt (by omega)
  rw [hdiv, hmod, Nat.add_zero]
  by_cases hd : day ≤ daysInMonth y (mi + 1)
  · rw [rollDays_of_le _ _ _ _ hd, if_pos hd]
  · have hge : 29 ≤ day := by have := daysInMonth_ge28 y (mi + 1); omega
    have hm12 : ¬ mi + 1 = 12 := by
      intro h
      rw [h, daysInMonth_twelve] at hd
      omega
    obtain ⟨k, rfl⟩ : ∃ k, day = k + 1 := ⟨day - 1, by omega⟩
    rw [if_neg hd]
    rw [rollDays, if_neg hd, if_neg hm12]
    have : daysInMonth y (mi + 1 + 1) ≥ 28 := daysInMonth_ge28 _ _
    have h28 : daysInMonth y (mi + 1) ≥ 28 := daysInMonth_ge28 _ _
    rw [rollDays_of_le _ _ _ _ (by omega)]

/-- `setFullYear` adds exactly the requested number of years on weakly
well-formed dates (the only possible renormalization, Feb 29 → Mar 1,
stays inside the year), and preserves weak well-formedness. -/
theorem addYearsJS_spec (d : CDate) (k : Nat) (h : WF d) :
    (addYearsJS d k).year = d.year + k ∧ WF (addYearsJS d k) := by
  obtain ⟨h1, h2, h3, h4⟩ := h
  unfold addYearsJS
  rw [mkJSDate_spec _ _ _ (by omega) h3 h4]
  have hm : d.month - 1 + 1 = d.month := by omega
  rw [hm]
  by_cases hd : d.day ≤ daysInMonth (d.year + k) d.month
  · rw [if_pos hd]
    exact ⟨rfl, h1, h2, h3, h4⟩
  · rw [if_neg hd]
    have h28 : 28 ≤ daysInMonth (d.year + k) d.month := daysInMonth_ge28 _ _
    have hm12 : ¬ d.month = 12 := by
      intro h12
      rw [h12, daysInMonth_twelve] at hd
      omega
    refine ⟨rfl, ?_⟩
    dsimp [WF]
    omega

theorem cdLt_iff (a b : CDate) : cdLt a b = true ↔
    (a.year < b.year ∨ (a.year = b.year ∧
      (a.month < b.month ∨ (a.month = b.month ∧ a.day < b.day)))) := by
  simp [cdLt]

theorem cdLt_irrefl (a : CDate) : cdLt a a = false := by
  simp [cdLt]

theorem cdLt_asymm (a b : CDate) (h : cdLt a b = true) : cdLt b a = false := by
  simp [cdLt] at h ⊢
  omega

theorem cdLt_of_year_lt (a b : CDate) (h : a.year < b.year) : cdLt a b = true := by
  simp [cdLt]
  omega

theorem cdLe_eq_not_cdLt (a b : CDate) : cdLe a b = !cdLt b a := rfl

theorem cdLe_refl (a : CDate) : cdLe a a = true := by
  rw [cdLe_eq_not_cdLt, cdLt_irrefl]
  rfl

/-- The k-th occurrence that the vaccine loops step through: k repeated
applications of `setFullYear(+frequencyYears)` starting at the vaccine
date. -/
def vaccineOcc (start : CDate) (freq : Nat) (k : Nat) : CDate :=
  (fun d => addYearsJS d freq)^[k] start

theorem vaccineOcc_zero (start : CDate) (freq : Nat) :
    vaccineOcc start freq 0 = start := rfl

theorem vaccineOcc_spec (start : CDate) (freq : Nat) (h : WF start) (k : Nat) :
    (vaccineOcc start freq k).year = start.year + k * freq ∧
      WF (vaccineOcc start freq k) := by
  induction k with
  | zero => exact ⟨by simp [vaccineOcc], h⟩
  | succ n ih =>
    obtain ⟨hy, hwf⟩ := ih
    have hstep := addYearsJS_spec (vaccineOcc start freq n) freq hwf
    have : vaccineOcc start freq (n + 1) =
        addYearsJS (vaccineOcc start freq n) freq := by
      unfold vaccineOcc
      rw [Function.iterate_succ_apply']
    rw [this]
    exact ⟨by rw [hstep.1, hy]; ring, hstep.2⟩

theorem vaccineOcc_lt (start : CDate) (freq : Nat) (h : WF start)
    (hf : 1 ≤ freq) (i j : Nat) (hij : i < j) :
    cdLt (vaccineOcc start freq i) (vaccineOcc start freq j) = true := by
  apply cdLt_of_year_lt
  rw [(vaccineOcc_spec start freq h i).1, (vaccineOcc_spec start freq h j).1]
  have : i * freq < j * freq := Nat.mul_lt_mul_of_lt_of_le hij (le_refl freq) (by omega)
  omega

/-! ## Loop specifications -/

/-- If the backlog-collapse loop of `createReminders` finishes, its result
no longer satisfies the guard, is reached from the initial value by some
number of steps, and every strictly earlier iterate still satisfied the
guard. -/
theorem collapseYearsF_some (today : CDate) (freq : Nat) :
    ∀ fuel d res, collapseYearsF today freq fuel d = some res →
      cdLt res today = false ∧
        ∃ n, res = (fun x => addYearsJS x freq)^[n] d ∧
          ∀ i, i < n → cdLt ((fun x => addYearsJS x freq)^[i] d) today = true := by
  intro fuel
  induction fuel with
  | zero =>
    intro d res h
    rw [collapseYearsF] at h
    by_cases hg : cdLt d today = true
    · rw [if_pos hg] at h
      exact absurd h (by simp)
    · rw [if_neg hg] at h
      obtain rfl : d = res := by simpa using h
      exact ⟨by simpa using hg, 0, rfl, by omega⟩
  | succ n ih =>
    intro d res h
    rw [collapseYearsF] at h
    by_cases hg : cdLt d today = true
    · rw [if_pos hg] at h
      obtain ⟨hres, k, hk, hall⟩ := ih _ _ h
      refine ⟨hres, k + 1, ?_, ?_⟩
      · rw [Function.iterate_succ_apply]
        exact hk
      · intro i hi
        match i with
        | 0 => simpa using hg
        | j + 1 =>
          rw [Function.iterate_succ_apply]
          exact hall j (by omega)
    · rw [if_neg hg] at h
      obtain rfl : d = res := by simpa using h
      exact ⟨by simpa using hg, 0, rfl, by omega⟩

/-- If the backlog-collapse loop of `createNextReminder` finishes, its
result no longer satisfies the guard. -/
theorem collapseFreqF_some (today : CDate) (ftype : FreqUnit) (v : Nat) :
    ∀ fuel d res, collapseFreqF today ftype v fuel d = some res →
      cdLt res today = false := by
  intro fuel
  induction fuel with
  | zero =>
    intro d res h
    rw [collapseFreqF] at h
    by_cases hg : cdLt d today = true
    · rw [if_pos hg] at h
      exact absurd h (by simp)
    · rw [if_neg hg] at h
      obtain rfl : d = res := by simpa using h
      simpa using hg
  | succ n ih =>
    intro d res h
    rw [collapseFreqF] at h
    by_cases hg : cdLt d today = true
    · rw [if_pos hg] at h
      exact ih _ _ h
    · rw [if_neg hg] at h
      obtain rfl : d = res := by simpa using h
      simpa using hg

/-- If the emission loop of `createReminders` finishes, every emitted date
satisfies the loop guard (is within the horizon) and is some iterate of the
starting date; the first emitted date is the starting date when the guard
initially holds, and nothing is emitted when it does not. -/
theorem emitYearsF_some (maxDate : CDate) (freq : Nat) :
    ∀ fuel d l, emitYearsF maxDate freq fuel d = some l →
      (∀ x ∈ l, cdLe x maxDate = true ∧
          ∃ n, x = (fun z => addYearsJS z freq)^[n] d) ∧
        (cdLe d maxDate = true → l.head? = some d) ∧
        (cdLe d maxDate = false → l = []) := by
  intro fuel
  induction fuel with
  | zero =>
    intro d l h
    rw [emitYearsF] at h
    by_cases hg : cdLe d maxDate = true
    · rw [if_pos hg] at h
      exact absurd h (by simp)
    · rw [if_neg hg] at h
      obtain rfl : ([] : List CDate) = l := by simpa using h
      exact ⟨by simp, by simp [hg], fun _ => rfl⟩
  | succ n ih =>
    intro d l h
    rw [emitYearsF] at h
    by_cases hg : cdLe d maxDate = true
    · rw [if_pos hg] at h
      obtain ⟨l2, hl2, rfl⟩ : ∃ l2, emitYearsF maxDate freq n (addYearsJS d freq) = some l2 ∧ d :: l2 = l := by
        cases hrec : emitYearsF maxDate freq n (addYearsJS d freq) with
        | none => rw [hrec] at h; exact absurd h (by simp)
        | some l2 => rw [hrec] at h; exact ⟨l2, rfl, by simpa using h⟩
      obtain ⟨hmem, _, _⟩ := ih _ _ hl2
      refine ⟨?_, fun _ => rfl, fun hf => absurd hg (by simp [hf])⟩
      intro x hx
      rcases List.mem_cons.mp hx with rfl | hx2
      · exact ⟨hg, 0, rfl⟩
      · obtain ⟨hxle, m, hm⟩ := hmem x hx2
        refine ⟨hxle, m + 1, ?_⟩
        rw [Function.iterate_succ_apply]
        exact hm
    · rw [if_neg hg] at h
      obtain rfl : ([] : List CDate) = l := by simpa using h
      exact ⟨by simp, by simp [hg], fun _ => rfl⟩

/-! ## Claims C1, C5 (vaccine engine, concrete runs) -/

/-- C1 (counterexample): for the Rabies CareEvent (occurredOn 2019-03-15,
yearly recurrence, interval 1) with today fixed at 2024-06-01, the engine's
full ordered output is NOT the five dates 2025-03-15 .. 2029-03-15 that the
claim states: the emission loop runs through the horizon `today + 10
years` = 2034-06-01 and therefore emits ten dates. -/
theorem c1_counterexample :
    (createRemindersF 100 "pet-1" "user-1" "Rabies".data ⟨2019, 3, 15⟩
        ⟨2024, 6, 1⟩ 1).map (fun l => l.map (fun r => r.reminderDate)) ≠
      some [⟨2025, 3, 15⟩, ⟨2026, 3, 15⟩, ⟨2027, 3, 15⟩, ⟨2028, 3, 15⟩,
        ⟨2029, 3, 15⟩] := by
  decide

/-- C1 (amended): for the Rabies CareEvent (occurredOn 2019-03-15, yearly
recurrence, interval 1) with today fixed at 2024-06-01, the engine emits
exactly the ten due dates 2025-03-15 through 2034-03-15, one per year,
capped by the horizon 2034-06-01 (`today + 10 years`, not
`start + 10 years`). -/
theorem c1_amended_series :
    (createRemindersF 100 "pet-1" "user-1" "Rabies".data ⟨2019, 3, 15⟩
        ⟨2024, 6, 1⟩ 1).map (fun l => l.map (fun r => r.reminderDate)) =
      some [⟨2025, 3, 15⟩, ⟨2026, 3, 15⟩, ⟨2027, 3, 15⟩, ⟨2028, 3, 15⟩,
        ⟨2029, 3, 15⟩, ⟨2030, 3, 15⟩, ⟨2031, 3, 15⟩, ⟨2032, 3, 15⟩,
        ⟨2033, 3, 15⟩, ⟨2034, 3, 15⟩] := by
  decide

/-- C5: with interval 0 the recurrence engines do not fail with any
validation error — no such error path exists in the code — and their
backlog-collapse `while` loops never terminate for a past event date: at
every fuel bound the loop is still running (`none`), for the vaccine
engine (event 2019-03-15, today 2024-06-01, frequencyYears 0) and for the
deworming engine (event 2024-01-10, today 2024-06-01, monthly frequency
value 0) alike. -/
theorem c5_interval_zero_diverges :
    (∀ fuel, createRemindersF fuel "pet-1" "user-1" "Rabies".data
        ⟨2019, 3, 15⟩ ⟨2024, 6, 1⟩ 0 = none) ∧
      (∀ fuel, createNextReminderF fuel "pet-1" "user-1" "Drontal".data
        ⟨2024, 1, 10⟩ ⟨2024, 6, 1⟩ .months 0 = none) := by
  constructor
  · have hstep : addYearsJS ⟨2019, 3, 15⟩ 0 = ⟨2019, 3, 15⟩ := by decide
    have hloop : ∀ fuel, collapseYearsF ⟨2024, 6, 1⟩ 0 fuel ⟨2019, 3, 15⟩ = none := by
      intro fuel
      induction fuel with
      | zero => decide
      | succ n ih =>
        rw [collapseYearsF, if_pos (by decide), hstep]
        exact ih
    intro fuel
    show (if cdLt (⟨2019, 3, 15⟩ : CDate) ⟨2024, 6, 1⟩ then
        collapseYearsF ⟨2024, 6, 1⟩ 0 fuel (addYearsJS ⟨2019, 3, 15⟩ 0)
      else some (addYearsJS ⟨2019, 3, 15⟩ 0)).bind _ = none
    rw [if_pos (by decide), hstep, hloop fuel]
    rfl
  · have hstep : addFreq .months 0 ⟨2024, 1, 10⟩ = ⟨2024, 1, 10⟩ := by decide
    have hloop : ∀ fuel, collapseFreqF ⟨2024, 6, 1⟩ .months 0 fuel ⟨2024, 1, 10⟩ = none := by
      intro fuel
      induction fuel with
      | zero => decide
      | succ n ih =>
        rw [collapseFreqF, if_pos (by decide), hstep]
        exact ih
    intro fuel
    show (if cdLt (⟨2024, 1, 10⟩ : CDate) ⟨2024, 6, 1⟩ then
        collapseFreqF ⟨2024, 6, 1⟩ .months 0 fuel (addFreq .months 0 ⟨2024, 1, 10⟩)
      else some (addFreq .months 0 ⟨2024, 1, 10⟩)).map _ = none
    rw [if_pos (by decide), hstep, hloop fuel]
    rfl

/-! ## Claim C4 (horizon bound, both engines) -/

/-- C4: in every run of either recurrence engine that finishes, no emitted
reminder is due after `today + 10 years` (`maxDate`, computed by
`setFullYear(+10)`), whatever the unit and interval: the vaccine emission
loop only pushes dates satisfying its `<= maxDate` guard, and the deworming
insert is guarded by the same comparison. -/
theorem c4_horizon_bound :
    (∀ (fuel : Nat) (petId userId : String) (vtype : List Char)
        (vd today : CDate) (freq : Nat) (out : List Reminder),
        createRemindersF fuel petId userId vtype vd today freq = some out →
        ∀ r ∈ out, cdLe r.reminderDate (addYearsJS today 10) = true) ∧
      (∀ (fuel : Nat) (petId userId : String) (dtype : List Char)
        (dd today : CDate) (ftype : FreqUnit) (v : Nat) (out : List Reminder),
        createNextReminderF fuel petId userId dtype dd today ftype v = some out →
        ∀ r ∈ out, cdLe r.reminderDate (addYearsJS today 10) = true) := by
  constructor
  · intro fuel petId userId vtype vd today freq out h r hr
    simp only [createRemindersF, Option.bind_eq_some, Option.map_eq_some'] at h
    obtain ⟨next, hnext, ds, hds, rfl⟩ := h
    rw [List.mem_map] at hr
    obtain ⟨d, hd, rfl⟩ := hr
    exact ((emitYearsF_some _ _ _ _ _ hds).1 d hd).1
  · intro fuel petId userId dtype dd today ftype v out h r hr
    simp only [createNextReminderF, Option.map_eq_some'] at h
    obtain ⟨next, hnext, rfl⟩ := h
    by_cases hin : cdLe next (addYearsJS today 10) = true
    · rw [if_pos hin] at hr
      rcases List.mem_singleton.mp hr with rfl
      exact hin
    · rw [if_neg hin] at hr
      exact absurd hr (List.not_mem_nil r)

/-- C4 witness: one finished vaccine run (future event 2030-01-01,
interval 3 years) and one finished deworming run (event 2024-01-10,
monthly), both against today = 2024-06-01. -/
theorem c4_horizon_bound_witness :
    (∀ r ∈ [mkVaccineReminder "user-1" "pet-1" "Rabia".data ⟨2033, 1, 1⟩],
        cdLe r.reminderDate (addYearsJS ⟨2024, 6, 1⟩ 10) = true) ∧
      (∀ r ∈ [mkDewormingReminder "user-1" "pet-1" "Drontal".data ⟨2024, 6, 10⟩],
        cdLe r.reminderDate (addYearsJS ⟨2024, 6, 1⟩ 10) = true) :=
  ⟨c4_horizon_bound.1 10 "pet-1" "user-1" "Rabia".data ⟨2030, 1, 1⟩
      ⟨2024, 6, 1⟩ 3 _ (by decide),
    c4_horizon_bound.2 10 "pet-1" "user-1" "Drontal".data ⟨2024, 1, 10⟩
      ⟨2024, 6, 1⟩ .months 1 _ (by decide)⟩

/-! ## Claim C2 (first emitted due date) -/

/-- C2 (counterexample): a CareEvent with recurrence enabled, positive
interval 50 and occurredOn 1990-01-01 strictly before today = 2024-06-01
makes the engine emit no reminder at all (the collapsed next occurrence
2040-01-01 lies beyond the horizon 2034-06-01), so there is no "first
emitted due date" as the claim asserts. -/
theorem c2_counterexample :
    cdLt ⟨1990, 1, 1⟩ ⟨2024, 6, 1⟩ = true ∧ 1 ≤ 50 ∧
      createRemindersF 100 "pet-1" "user-1" "Rabies".data ⟨1990, 1, 1⟩
        ⟨2024, 6, 1⟩ 50 = some [] := by
  decide

/-- C2 (amended): in any finished vaccine engine run with positive
interval, provided some reminder is emitted: if the event date is strictly
before today, the first emitted due date is the least k-fold interval
advance of the event date (k ≥ 1) that is on or after today; if the event
date is today or later, the first emitted due date is exactly
`start + interval`; and a due date equal to the event date itself is never
emitted. -/
theorem c2_amended_first_due :
    ∀ (fuel : Nat) (petId userId : String) (vtype : List Char)
      (start today : CDate) (freq : Nat) (out : List Reminder) (first : CDate),
      1 ≤ freq → WF start →
      createRemindersF fuel petId userId vtype start today freq = some out →
      (out.map (fun r => r.reminderDate)).head? = some first →
      ((cdLt start today = true →
          ∃ k, 1 ≤ k ∧ first = vaccineOcc start freq k ∧
            cdLe today first = true ∧
            ∀ j, 1 ≤ j → cdLe today (vaccineOcc start freq j) = true →
              cdLe first (vaccineOcc start freq j) = true) ∧
        (cdLt start today = false → first = addYearsJS start freq)) ∧
      ∀ r ∈ out, r.reminderDate ≠ start := by
  intro fuel petId userId vtype start today freq out first hf hwf h hfirst
  simp only [createRemindersF, Option.bind_eq_some, Option.map_eq_some'] at h
  obtain ⟨next, hnext, ds, hds, rfl⟩ := h
  have hmap : ((ds.map (fun d => mkVaccineReminder userId petId vtype d)).map
      (fun r => r.reminderDate)) = ds := by
    simp [mkVaccineReminder, Function.comp_def]
  rw [hmap] at hfirst
  have hspec := emitYearsF_some _ _ _ _ _ hds
  have hheadnext : first = next := by
    by_cases hin : cdLe next (addYearsJS today 10) = true
    · have := hspec.2.1 hin
      rw [this] at hfirst
      exact (Option.some_injective _ hfirst).symm
    · have := hspec.2.2 (by simpa using hin)
      rw [this] at hfirst
      simp at hfirst
  -- the collapsed value is an iterate k ≥ 1 of the event date,
  -- with all earlier iterates before today in the past case
  have hkey : ∃ t, 1 ≤ t ∧ next = vaccineOcc start freq t ∧
      (cdLt start today = true →
        cdLt next today = false ∧
          ∀ i, 1 ≤ i → i < t → cdLt (vaccineOcc start freq i) today = true) ∧
      (cdLt start today = false → next = addYearsJS start freq) := by
    by_cases hpast : cdLt start today = true
    · rw [if_pos hpast] at hnext
      obtain ⟨hres, n, hn, hall⟩ := collapseYearsF_some _ _ _ _ _ hnext
      refine ⟨n + 1, by omega, ?_, ?_, fun hcon => absurd hpast (by simp [hcon])⟩
      · rw [hn]
        unfold vaccineOcc
        rw [Function.iterate_succ_apply]
      · intro _
        refine ⟨hres, ?_⟩
        intro i hi1 hi2
        have := hall (i - 1) (by omega)
        unfold vaccineOcc
        have hi : i = (i - 1) + 1 := by omega
        rw [hi, Function.iterate_succ_apply]
        exact this
    · rw [if_neg hpast] at hnext
      have hnext2 : next = addYearsJS start freq := (Option.some_injective _ hnext).symm
      exact ⟨1, le_refl 1, by
        rw [hnext2]
        unfold vaccineOcc
        rw [Function.iterate_one], fun hcon => absurd hcon hpast,
        fun _ => hnext2⟩
  obtain ⟨t, ht1, htocc, hpastfacts, hfuture⟩ := hkey
  constructor
  · constructor
    · intro hpast
      obtain ⟨hres, hall⟩ := hpastfacts hpast
      refine ⟨t, ht1, by rw [hheadnext, htocc], ?_, ?_⟩
      · rw [hheadnext, cdLe_eq_not_cdLt, hres]
        rfl
      · intro j hj1 hjge
        by_cases hcmp : j < t
        · exfalso
          have := hall j hj1 hcmp
          rw [cdLe_eq_not_cdLt, this] at hjge
          simp at hjge
        · rcases Nat.lt_or_ge t j with hlt | hge
          · have := vaccineOcc_lt start freq hwf hf t j hlt
            rw [hheadnext, htocc, cdLe_eq_not_cdLt, cdLt_asymm _ _ this]
            rfl
          · have : t = j := by omega
            rw [hheadnext, htocc, this]
            exact cdLe_refl _
    · intro hfut
      rw [hheadnext, hfuture hfut]
  · intro r hr
    rw [List.mem_map] at hr
    obtain ⟨d, hd, rfl⟩ := hr
    obtain ⟨-, m, hm⟩ := hspec.1 d hd
    show d ≠ start
    intro hcon
    have hdocc : d = vaccineOcc start freq (m + t) := by
      rw [hm, htocc]
      unfold vaccineOcc
      rw [Function.iterate_add_apply]
    have hyear := (vaccineOcc_spec start freq hwf (m + t)).1
    rw [← hdocc, hcon] at hyear
    have hpos : 0 < (m + t) * freq := Nat.mul_pos (by omega) (by omega)
    omega

/-- C2 witness: event date 2023-01-10 (strictly before today 2024-06-01),
interval 3 years; the run emits 2026-01-10, 2029-01-10, 2032-01-10, and
the first due date 2026-01-10 is the least interval advance on or after
today. -/
theorem c2_amended_first_due_witness :
    ((cdLt ⟨2023, 1, 10⟩ ⟨2024, 6, 1⟩ = true →
        ∃ k, 1 ≤ k ∧ (⟨2026, 1, 10⟩ : CDate) = vaccineOcc ⟨2023, 1, 10⟩ 3 k ∧
          cdLe ⟨2024, 6, 1⟩ ⟨2026, 1, 10⟩ = true ∧
          ∀ j, 1 ≤ j → cdLe ⟨2024, 6, 1⟩ (vaccineOcc ⟨2023, 1, 10⟩ 3 j) = true →
            cdLe ⟨2026, 1, 10⟩ (vaccineOcc ⟨2023, 1, 10⟩ 3 j) = true) ∧
      (cdLt ⟨2023, 1, 10⟩ ⟨2024, 6, 1⟩ = false →
        (⟨2026, 1, 10⟩ : CDate) = addYearsJS ⟨2023, 1, 10⟩ 3)) ∧
    ∀ r ∈ [mkVaccineReminder "user-1" "pet-1" "Rabia".data ⟨2026, 1, 10⟩,
        mkVaccineReminder "user-1" "pet-1" "Rabia".data ⟨2029, 1, 10⟩,
        mkVaccineReminder "user-1" "pet-1" "Rabia".data ⟨2032, 1, 10⟩],
      r.reminderDate ≠ ⟨2023, 1, 10⟩ :=
  c2_amended_first_due 100 "pet-1" "user-1" "Rabia".data ⟨2023, 1, 10⟩
    ⟨2024, 6, 1⟩ 3 _ ⟨2026, 1, 10⟩ (by decide) (by decide) (by decide) (by decide)

/-! ## Claim C3 (deworming single-occurrence rule) -/

/-- C3 (counterexample): a monthly deworming CareEvent dated 2040-01-01
(recurrence enabled, today = 2024-06-01) emits zero reminders, not exactly
one: the single candidate occurrence 2040-02-01 lies beyond the horizon
2034-06-01, so the guarded insert is skipped. -/
theorem c3_counterexample :
    (createNextReminderF 100 "pet-1" "user-1" "Drontal".data ⟨2040, 1, 1⟩
        ⟨2024, 6, 1⟩ .months 1).map (fun l => l.length) = some 0 := by
  decide

/-- C3 (amended): every finished deworming engine run emits at most one
reminder — never the full series.  Any emitted reminder is within the
10-year horizon; its due date is on or after today when the event date is
past, and exactly the event date advanced by one interval when the event
date is today or in the future — and in that case nothing at all is
emitted exactly when this single candidate exceeds the horizon. -/
theorem c3_amended_single :
    ∀ (fuel : Nat) (petId userId : String) (dtype : List Char)
      (dd today : CDate) (ftype : FreqUnit) (v : Nat) (out : List Reminder),
      createNextReminderF fuel petId userId dtype dd today ftype v = some out →
      out.length ≤ 1 ∧
        (∀ r ∈ out, cdLe r.reminderDate (addYearsJS today 10) = true ∧
          (cdLt dd today = true → cdLe today r.reminderDate = true) ∧
          (cdLt dd today = false → r.reminderDate = addFreq ftype v dd)) ∧
        (cdLt dd today = false →
          (out = [] ↔ cdLe (addFreq ftype v dd) (addYearsJS today 10) = false)) := by
  intro fuel petId userId dtype dd today ftype v out h
  simp only [createNextReminderF, Option.map_eq_some'] at h
  obtain ⟨next, hnext, rfl⟩ := h
  have hnextfacts : (cdLt dd today = true → cdLt next today = false) ∧
      (cdLt dd today = false → next = addFreq ftype v dd) := by
    by_cases hpast : cdLt dd today = true
    · rw [if_pos hpast] at hnext
      exact ⟨fun _ => collapseFreqF_some _ _ _ _ _ _ hnext,
        fun hcon => absurd hpast (by simp [hcon])⟩
    · rw [if_neg hpast] at hnext
      exact ⟨fun hcon => absurd hcon hpast,
        fun _ => (Option.some_injective _ hnext).symm⟩
  by_cases hin : cdLe next (addYearsJS today 10) = true
  · rw [if_pos hin]
    refine ⟨by simp, ?_, ?_⟩
    · intro r hr
      rcases List.mem_singleton.mp hr with rfl
      refine ⟨hin, ?_, ?_⟩
      · intro hpast
        rw [cdLe_eq_not_cdLt]
        show (!cdLt next today) = true
        rw [hnextfacts.1 hpast]
        rfl
      · intro hfut
        exact hnextfacts.2 hfut
    · intro hfut
      rw [← hnextfacts.2 hfut]
      constructor
      · intro hcon
        exact absurd hcon (by simp)
      · intro hcon
        rw [hin] at hcon
        exact absurd hcon (by simp)
  · rw [if_neg hin]
    refine ⟨by simp, fun r hr => absurd hr (List.not_mem_nil r), ?_⟩
    intro hfut
    rw [← hnextfacts.2 hfut]
    simpa using hin

/-- C3 witness: a monthly deworming dated 2024-01-10 with today =
2024-06-01 emits exactly the single collapsed occurrence 2024-06-10. -/
theorem c3_amended_single_witness :
    ([mkDewormingReminder "user-1" "pet-1" "Drontal".data ⟨2024, 6, 10⟩].length ≤ 1 ∧
      (∀ r ∈ [mkDewormingReminder "user-1" "pet-1" "Drontal".data ⟨2024, 6, 10⟩],
        cdLe r.reminderDate (addYearsJS ⟨2024, 6, 1⟩ 10) = true ∧
          (cdLt ⟨2024, 1, 10⟩ ⟨2024, 6, 1⟩ = true →
            cdLe ⟨2024, 6, 1⟩ r.reminderDate = true) ∧
          (cdLt ⟨2024, 1, 10⟩ ⟨2024, 6, 1⟩ = false →
            r.reminderDate = addFreq .months 1 ⟨2024, 1, 10⟩)) ∧
        (cdLt ⟨2024, 1, 10⟩ ⟨2024, 6, 1⟩ = false →
          ([mkDewormingReminder "user-1" "pet-1" "Drontal".data ⟨2024, 6, 10⟩] = [] ↔
            cdLe (addFreq .months 1 ⟨2024, 1, 10⟩) (addYearsJS ⟨2024, 6, 1⟩ 10) = false))) :=
  c3_amended_single 100 "pet-1" "user-1" "Drontal".data ⟨2024, 1, 10⟩
    ⟨2024, 6, 1⟩ .months 1 _ (by decide)

/-! ## Claim C7: the date string helpers -/

/-- JS `String(n)` for a natural number: decimal digits, most significant
first. -/
def renderNat (n : Nat) : List Char :=
  if n = 0 then ['0'] else (Nat.digits 10 n).reverse.map Nat.digitChar

/-- JS `.padStart(2, '0')`. -/
def padStart2 (s : List Char) : List Char :=
  List.replicate (2 - s.length) '0' ++ s

/-- `formatDateString` (VaccineTab.tsx 97-102): zero-padded `YYYY-MM-DD`
from the local-time components, assembled as the template
`` `${year}-${month}-${day}` ``.  Strings are modelled as their character
lists. -/
def formatDateString (d : CDate) : List Char :=
  renderNat d.year ++ '-' ::
    (padStart2 (renderNat d.month) ++ '-' :: padStart2 (renderNat d.day))

/-- JS `Number(s)` on the all-digit strings produced by splitting a
formatted date: fold up the decimal digits.  Non-digit strings (which JS
maps to NaN) are outside the modelled domain. -/
def toNumber (s : List Char) : Nat :=
  s.foldl (fun a c => 10 * a + (c.toNat - 48)) 0

/-- `parseDateString` (VaccineTab.tsx 91-94): split on `-`, convert the
first three parts with `Number`, and build `new Date(year, month - 1,
day)`.  Strings with fewer than three parts (JS destructuring would give
`undefined`/NaN and an Invalid Date) fall outside the modelled domain and
map to a fixed dummy date. -/
def parseDateString (s : List Char) : CDate :=
  match s.splitOn '-' with
  | y :: m :: d :: _ => mkJSDate (toNumber y) (toNumber m - 1) (toNumber d)
  | _ => ⟨0, 1, 1⟩

theorem digitChar_ne_dash (d : Nat) (h : d < 10) : Nat.digitChar d ≠ '-' := by
  interval_cases d <;> decide

theorem renderNat_ne_dash (n : Nat) : ∀ c ∈ renderNat n, c ≠ '-' := by
  intro c hc
  unfold renderNat at hc
  by_cases h0 : n = 0
  · rw [if_pos h0] at hc
    rcases List.mem_singleton.mp hc with rfl
    decide
  · rw [if_neg h0] at hc
    rw [List.mem_map] at hc
    obtain ⟨d, hd, rfl⟩ := hc
    rw [List.mem_reverse] at hd
    exact digitChar_ne_dash d (Nat.digits_lt_base (by norm_num) hd)

theorem padStart2_ne_dash (s : List Char) (h : ∀ c ∈ s, c ≠ '-') :
    ∀ c ∈ padStart2 s, c ≠ '-' := by
  intro c hc
  unfold padStart2 at hc
  rcases List.mem_append.mp hc with hrep | hs
  · rw [List.eq_of_mem_replicate hrep]
    decide
  · exact h c hs

theorem foldl_digits_zeros (k : Nat) (a : Nat) (ha : a = 0) :
    List.foldl (fun a c => 10 * a + (c.toNat - 48)) a
      (List.replicate k '0') = 0 := by
  induction k generalizing a with
  | zero => simpa using ha
  | succ n ih =>
    rw [List.replicate_succ, List.foldl_cons]
    exact ih _ (by subst ha; rfl)

theorem toNumber_padStart2 (s : List Char) :
    toNumber (padStart2 s) = toNumber s := by
  unfold toNumber padStart2
  rw [List.foldl_append, foldl_digits_zeros _ 0 rfl]

theorem toNumber_renderNat (n : Nat) : toNumber (renderNat n) = n := by
  unfold toNumber renderNat
  by_cases h0 : n = 0
  · subst h0
    decide
  · rw [if_neg h0]
    have hlt : ∀ d ∈ Nat.digits 10 n, d < 10 := fun d hd =>
      Nat.digits_lt_base (by norm_num) hd
    have hmap : List.foldl (fun a c => 10 * a + (c.toNat - 48)) 0
        ((Nat.digits 10 n).reverse.map Nat.digitChar) =
        List.foldl (fun a d => 10 * a + d) 0 (Nat.digits 10 n).reverse := by
      rw [List.foldl_map]
      have : ∀ (l : List Nat), (∀ d ∈ l, d < 10) → ∀ a,
          List.foldl (fun a d => 10 * a + ((Nat.digitChar d).toNat - 48)) a l =
            List.foldl (fun a d => 10 * a + d) a l := by
        intro l
        induction l with
        | nil => intro _ _; rfl
        | cons x t ih =>
          intro hl a
          rw [List.foldl_cons, List.foldl_cons]
          have hx : (Nat.digitChar x).toNat - 48 = x := by
            have : x < 10 := hl x (List.mem_cons_self x t)
            interval_cases x <;> decide
          rw [hx]
          exact ih (fun d hd => hl d (List.mem_cons_of_mem x hd)) _
      exact this _ (fun d hd => hlt d (List.mem_reverse.mp hd)) 0
    rw [hmap, List.foldl_reverse]
    have : ∀ (l : List Nat),
        List.foldr (fun d a => 10 * a + d) 0 l = Nat.ofDigits 10 l := by
      intro l
      induction l with
      | nil => rfl
      | cons x t ih =>
        rw [List.foldr_cons, ih, Nat.ofDigits_cons]
        omega
    rw [this, Nat.ofDigits_digits]

/-- Splitting the assembled `Y-MM-DD` template recovers exactly the three
component strings. -/
theorem splitOn_formatDateString (d : CDate) :
    (formatDateString d).splitOn '-' =
      [renderNat d.year, padStart2 (renderNat d.month),
        padStart2 (renderNat d.day)] := by
  unfold formatDateString
  show List.splitOnP (· == '-') _ = _
  rw [List.splitOnP_first _ _
    (fun c hc => by simpa using renderNat_ne_dash d.year c hc) '-' (by simp)]
  rw [List.splitOnP_first _ _
    (fun c hc => by
      simpa using padStart2_ne_dash _ (renderNat_ne_dash d.month) c hc) '-' (by simp)]
  rw [List.splitOnP_eq_single _ _
    (fun c hc => by
      simpa using padStart2_ne_dash _ (renderNat_ne_dash d.day) c hc)]

/-- C7: for every valid calendar date, formatting with `formatDateString`
and re-parsing with `parseDateString` reconstructs the identical
year/month/day triple.  Neither function consults the UTC offset: both
read and write only local calendar components, so the round-trip is
offset-independent by construction (the year is rendered unpadded, so
years ≥ 1 are modelled; JS would format negative years unparsably). -/
theorem c7_date_roundtrip (y m d : Nat) (_hy : 1 ≤ y) (hm1 : 1 ≤ m)
    (hm2 : m ≤ 12) (hd1 : 1 ≤ d) (hd2 : d ≤ daysInMonth y m) :
    parseDateString (formatDateString ⟨y, m, d⟩) = ⟨y, m, d⟩ := by
  unfold parseDateString
  rw [splitOn_formatDateString]
  show mkJSDate (toNumber (renderNat y))
    (toNumber (padStart2 (renderNat m)) - 1)
    (toNumber (padStart2 (renderNat d))) = _
  rw [toNumber_renderNat, toNumber_padStart2, toNumber_padStart2,
    toNumber_renderNat, toNumber_renderNat]
  rw [mkJSDate_spec y (m - 1) d (by omega) hd1
    (le_trans hd2 (daysInMonth_le31 y m))]
  have hm : m - 1 + 1 = m := by omega
  rw [hm, if_pos hd2]

/-- C7 witness: the round-trip at 2024-06-01. -/
theorem c7_date_roundtrip_witness :
    parseDateString (formatDateString ⟨2024, 6, 1⟩) = ⟨2024, 6, 1⟩ :=
  c7_date_roundtrip 2024 6 1 (by decide) (by decide) (by decide) (by decide)
    (by decide)

/-! ## Reminder reconciliation: substring deletes (claims C6, C10) -/

/-- `p` begins the string `s` (character lists). -/
def startsWithList : List Char → List Char → Bool
  | [], _ => true
  | _ :: _, [] => false
  | p :: ps, c :: cs => p == c && startsWithList ps cs

/-- Postgres `LIKE '%pat%'` on a stored string `s`: `pat` occurs
contiguously somewhere in `s`.  `LIKE` is case-sensitive. -/
def containsSub (pat : List Char) : List Char → Bool
  | [] => startsWithList pat []
  | c :: cs => startsWithList pat (c :: cs) || containsSub pat cs

theorem startsWithList_mem (p : List Char) :
    ∀ (s : List Char), startsWithList p s = true → ∀ c ∈ p, c ∈ s := by
  induction p with
  | nil =>
    intro s _ c hc
    exact absurd hc (List.not_mem_nil c)
  | cons a ps ih =>
    intro s h c hc
    match s with
    | [] => simp [startsWithList] at h
    | x :: xs =>
      simp only [startsWithList, Bool.and_eq_true, beq_iff_eq] at h
      rcases List.mem_cons.mp hc with rfl | hmem
      · rw [h.1]
        exact List.mem_cons_self x xs
      · exact List.mem_cons_of_mem x (ih xs h.2 c hmem)

theorem containsSub_mem (p : List Char) :
    ∀ (s : List Char), containsSub p s = true → ∀ c ∈ p, c ∈ s := by
  intro s
  induction s with
  | nil =>
    intro h c hc
    exact startsWithList_mem p [] h c hc
  | cons x xs ih =>
    intro h c hc
    rw [containsSub, Bool.or_eq_true] at h
    rcases h with h1 | h2
    · exact startsWithList_mem _ _ h1 c hc
    · exact List.mem_cons_of_mem x (ih h2 c hc)

theorem containsSub_append_left (p s pre : List Char)
    (h : containsSub p s = true) : containsSub p (pre ++ s) = true := by
  induction pre with
  | nil => simpa using h
  | cons x t ih =>
    rw [List.cons_append, containsSub, ih]
    simp

/-- The reconciliation delete issued by the vaccine `handleUpdate` (lines
257-263) and `handleDelete` (lines 310-315): rows matching
`.eq("pet_id", petId)`, `.like("title", `%oldType%`)` and
`.like("description", "%Vacuna%")`. -/
def vaccineDeletePred (petId : String) (oldType : List Char)
    (r : Reminder) : Bool :=
  r.petId == petId && containsSub oldType r.title &&
    containsSub "Vacuna".data r.description

/-- The reconciliation delete issued by the deworming `handleUpdate`
(lines 866-871) and `handleDelete`: same shape with the
`"%Desparasitación%"` description marker. -/
def dewormingDeletePred (petId : String) (oldType : List Char)
    (r : Reminder) : Bool :=
  r.petId == petId && containsSub oldType r.title &&
    containsSub "Desparasitación".data r.description

/-- The reminders-table state after the vaccine reconciliation delete. -/
def deleteVaccineRemindersF (state : List Reminder) (petId : String)
    (oldType : List Char) : List Reminder :=
  state.filter (fun r => !vaccineDeletePred petId oldType r)

/-- `handleUpdate` of the vaccine tab (lines 239-305), projected onto the
reminders-table state, on the path where the reminder checkbox is checked:
first the substring-match delete keyed on the previous `vaccine_type`,
then the engine re-runs with the new parameters and the fresh batch is
inserted. -/
def handleUpdateVaccineF (fuel : Nat) (state : List Reminder)
    (petId userId : String) (oldType newType : List Char)
    (date today : CDate) (freq : Nat) : Option (List Reminder) :=
  (createRemindersF fuel petId userId newType date today freq).map
    (fun fresh => deleteVaccineRemindersF state petId oldType ++ fresh)

/-! ## Claim C6 (one-future-reminder ownership invariant) -/

/-- A reminder is owned by the CareEvent whose `"{kind}: {label}"` text its
title matches. -/
def ownsReminder (kindLabel : List Char) (r : Reminder) : Bool :=
  r.title == kindLabel

/-- Number of reminders in a state owned by a given CareEvent and due
strictly after today. -/
def futureOwnedCount (state : List Reminder) (kindLabel : List Char)
    (today : CDate) : Nat :=
  (state.filter (fun r => ownsReminder kindLabel r &&
    cdLt today r.reminderDate)).length

/-- C6 (counterexample): a single create of the Rabies vaccine CareEvent
(occurredOn 2019-03-15, yearly recurrence) on an empty reminders store —
a sequence of one normal operation — leaves the event owning ten future
reminders at once, not at most one. -/
theorem c6_counterexample :
    (createRemindersF 100 "pet-1" "user-1" "Rabies".data ⟨2019, 3, 15⟩
        ⟨2024, 6, 1⟩ 1).map
      (fun inserted =>
        futureOwnedCount inserted (vacTitle "Rabies".data) ⟨2024, 6, 1⟩) =
      some 10 ∧ ¬ (10 ≤ 1) := by
  decide

/-- C6 (amended): a CareEvent may own a whole future series at once (the
vaccine engine inserts one reminder per interval through the horizon, see
the counterexample), and on edit the old reminders are not actually
deleted before the new ones are created: the delete's capitalized
description marker `"Vacuna"` matches no engine-generated reminder, whose
stored description contains only the lowercase `"vacuna"` — so the update
appends the fresh batch to the untouched previous state. -/
theorem c6_amended_stale :
    ∀ (state : List Reminder) (fuel : Nat) (petId userId : String)
      (oldType newType vtype : List Char) (vd today d : CDate) (freq : Nat),
      (∀ r ∈ state, vaccineDeletePred petId oldType r = false) →
      ('V' ∈ vtype → False) →
      handleUpdateVaccineF fuel state petId userId oldType newType vd today freq =
        (createRemindersF fuel petId userId newType vd today freq).map
          (fun fresh => state ++ fresh) ∧
        vaccineDeletePred petId oldType
          (mkVaccineReminder userId petId vtype d) = false := by
  intro state fuel petId userId oldType newType vtype vd today d freq hstate hv
  constructor
  · unfold handleUpdateVaccineF
    have : deleteVaccineRemindersF state petId oldType = state := by
      unfold deleteVaccineRemindersF
      rw [List.filter_eq_self]
      intro r hr
      rw [hstate r hr]
      rfl
    rw [this]
  · have hdesc : containsSub "Vacuna".data (vacDesc vtype) = false := by
      cases hcs : containsSub "Vacuna".data (vacDesc vtype) with
      | false => rfl
      | true =>
        exfalso
        have hmem := containsSub_mem _ _ hcs 'V' (by decide)
        unfold vacDesc at hmem
        rcases List.mem_append.mp hmem with hpre | hlbl
        · exact absurd hpre (by decide)
        · exact hv hlbl
    unfold vaccineDeletePred
    simp [mkVaccineReminder, hdesc]

/-- C6 witness: a store holding one engine-generated reminder of the
edited event ("Moquillo"); the update leaves it in place and appends the
fresh batch for the new label "Rabia". -/
theorem c6_amended_stale_witness :
    handleUpdateVaccineF 10
        [mkVaccineReminder "user-1" "pet-1" "Moquillo".data ⟨2025, 1, 1⟩]
        "pet-1" "user-1" "Moquillo".data "Rabia".data ⟨2030, 1, 1⟩
        ⟨2024, 6, 1⟩ 3 =
      (createRemindersF 10 "pet-1" "user-1" "Rabia".data ⟨2030, 1, 1⟩
          ⟨2024, 6, 1⟩ 3).map
        (fun fresh =>
          [mkVaccineReminder "user-1" "pet-1" "Moquillo".data ⟨2025, 1, 1⟩] ++
            fresh) ∧
      vaccineDeletePred "pet-1" "Moquillo".data
        (mkVaccineReminder "user-1" "pet-1" "Rabia".data ⟨2033, 1, 1⟩) = false :=
  c6_amended_stale
    [mkVaccineReminder "user-1" "pet-1" "Moquillo".data ⟨2025, 1, 1⟩] 10
    "pet-1" "user-1" "Moquillo".data "Rabia".data "Rabia".data ⟨2030, 1, 1⟩
    ⟨2024, 6, 1⟩ ⟨2033, 1, 1⟩ 3 (by decide) (by decide)

/-! ## Claim C10 (substring-label cross-deletion) -/

/-- C10 (counterexample): pet with two vaccine CareEvents "Rabies" and
"Rabies Booster" whose engine-generated reminders are both stored; the
reconciliation delete for the event with the substring label "Rabies"
leaves the state unchanged — in particular it does NOT delete the
"Rabies Booster" reminder, although that reminder's title does contain the
substring "Rabies".  The description marker `%Vacuna%` (capital V) matches
neither stored description (lowercase "vacuna"), so nothing at all is
deleted. -/
theorem c10_counterexample :
    containsSub "Rabies".data
        (mkVaccineReminder "user-1" "pet-1" "Rabies Booster".data
          ⟨2025, 4, 1⟩).title = true ∧
      deleteVaccineRemindersF
          [mkVaccineReminder "user-1" "pet-1" "Rabies".data ⟨2025, 3, 15⟩,
            mkVaccineReminder "user-1" "pet-1" "Rabies Booster".data
              ⟨2025, 4, 1⟩]
          "pet-1" "Rabies".data =
        [mkVaccineReminder "user-1" "pet-1" "Rabies".data ⟨2025, 3, 15⟩,
          mkVaccineReminder "user-1" "pet-1" "Rabies Booster".data
            ⟨2025, 4, 1⟩] := by
  decide

/-- C10 (amended): the reconciliation delete does select only by pet id, a
kind-marker substring in the description and a substring match of the
previous label in the title — it never checks which event generated a
reminder, and a label in substring relation does make the title pattern
match the other event's reminders.  But the kind markers are capitalized
(`"Vacuna"`, `"Desparasitación"`) while the engine-generated descriptions
contain only the lowercase forms, so the predicate rejects every
engine-generated reminder and the edit/delete removes nothing — neither
the other event's reminders nor its own. -/
theorem c10_amended_no_delete :
    ∀ (petId userId : String) (sub lbl dlbl : List Char) (d d2 : CDate),
      containsSub sub lbl = true → ('V' ∈ lbl → False) → ('D' ∈ dlbl → False) →
      containsSub sub (mkVaccineReminder userId petId lbl d).title = true ∧
        vaccineDeletePred petId sub
          (mkVaccineReminder userId petId lbl d) = false ∧
        dewormingDeletePred petId sub
          (mkDewormingReminder userId petId dlbl d2) = false := by
  intro petId userId sub lbl dlbl d d2 hsub hv hd
  refine ⟨?_, ?_, ?_⟩
  · show containsSub sub (vacTitle lbl) = true
    unfold vacTitle
    exact containsSub_append_left _ _ _ hsub
  · have hdesc : containsSub "Vacuna".data (vacDesc lbl) = false := by
      cases hcs : containsSub "Vacuna".data (vacDesc lbl) with
      | false => rfl
      | true =>
        exfalso
        have hmem := containsSub_mem _ _ hcs 'V' (by decide)
        unfold vacDesc at hmem
        rcases List.mem_append.mp hmem with hpre | hlbl
        · exact absurd hpre (by decide)
        · exact hv hlbl
    unfold vaccineDeletePred
    simp [mkVaccineReminder, hdesc]
  · have hdesc : containsSub "Desparasitación".data (dewDesc dlbl) = false := by
      cases hcs : containsSub "Desparasitación".data (dewDesc dlbl) with
      | false => rfl
      | true =>
        exfalso
        have hmem := containsSub_mem _ _ hcs 'D' (by decide)
        unfold dewDesc at hmem
        rcases List.mem_append.mp hmem with hpre | hlbl
        · exact absurd hpre (by decide)
        · exact hd hlbl
    unfold dewormingDeletePred
    simp [mkDewormingReminder, hdesc]

/-- C10 witness: labels "Rabies" ⊑ "Rabies Booster" for the vaccine side
and "Canex" for the deworming side. -/
theorem c10_amended_no_delete_witness :
    containsSub "Rabies".data
        (mkVaccineReminder "user-1" "pet-1" "Rabies Booster".data
          ⟨2026, 3, 15⟩).title = true ∧
      vaccineDeletePred "pet-1" "Rabies".data
        (mkVaccineReminder "user-1" "pet-1" "Rabies Booster".data
          ⟨2026, 3, 15⟩) = false ∧
      dewormingDeletePred "pet-1" "Rabies".data
        (mkDewormingReminder "user-1" "pet-1" "Canex".data ⟨2024, 7, 1⟩) = false :=
  c10_amended_no_delete "pet-1" "user-1" "Rabies".data "Rabies Booster".data
    "Canex".data ⟨2026, 3, 15⟩ ⟨2024, 7, 1⟩ (by decide) (by decide) (by decide)

/-! ## Stable comparator sort (timeline and weight-chart ordering) -/

theorem cdLt_neg_trans (a b c : CDate) (h1 : cdLt a b = false)
    (h2 : cdLt b c = false) : cdLt a c = false := by
  simp [cdLt] at h1 h2 ⊢
  omega

/-- Stable insertion into a sorted list: `bf a b` means the comparator
orders `a` strictly before `b`; on a tie the inserted element — which came
earlier in the input — is placed first. -/
def insertStable (bf : α → α → Bool) (x : α) : List α → List α
  | [] => [x]
  | y :: ys => if bf y x then y :: insertStable bf x ys else x :: y :: ys

/-- Insertion sort with a strict comparator.  Any stable sort consistent
with the same comparator produces this output, so it faithfully models
ES2019+ `Array.prototype.sort` with a numeric comparator. -/
def sortStable (bf : α → α → Bool) : List α → List α
  | [] => []
  | x :: xs => insertStable bf x (sortStable bf xs)

theorem insertStable_perm (bf : α → α → Bool) (x : α) :
    ∀ l : List α, (insertStable bf x l).Perm (x :: l) := by
  intro l
  induction l with
  | nil => exact List.Perm.refl _
  | cons y ys ih =>
    rw [insertStable]
    by_cases hbf : bf y x = true
    · rw [if_pos hbf]
      exact ((ih.cons y).trans (List.Perm.swap x y ys))
    · rw [if_neg hbf]

theorem sortStable_perm (bf : α → α → Bool) :
    ∀ l : List α, (sortStable bf l).Perm l := by
  intro l
  induction l with
  | nil => exact List.Perm.refl _
  | cons x xs ih =>
    rw [sortStable]
    exact (insertStable_perm bf x (sortStable bf xs)).trans (ih.cons x)

theorem insertStable_pairwise (bf : α → α → Bool)
    (hasym : ∀ a b, bf a b = true → bf b a = false)
    (htrans : ∀ a b c, bf b a = false → bf c b = false → bf c a = false)
    (x : α) :
    ∀ l : List α, l.Pairwise (fun a b => bf b a = false) →
      (insertStable bf x l).Pairwise (fun a b => bf b a = false) := by
  intro l
  induction l with
  | nil =>
    intro _
    simp [insertStable]
  | cons y ys ih =>
    intro hl
    rw [List.pairwise_cons] at hl
    obtain ⟨hy, hys⟩ := hl
    rw [insertStable]
    by_cases hbf : bf y x = true
    · rw [if_pos hbf, List.pairwise_cons]
      refine ⟨?_, ih hys⟩
      intro z hz
      have hz2 := (insertStable_perm bf x ys).mem_iff.mp hz
      rcases List.mem_cons.mp hz2 with rfl | hmem
      · exact hasym y z hbf
      · exact hy z hmem
    · rw [if_neg hbf, List.pairwise_cons]
      have hbf2 : bf y x = false := by
        cases h : bf y x
        · rfl
        · exact absurd h hbf
      refine ⟨?_, List.pairwise_cons.mpr ⟨hy, hys⟩⟩
      intro z hz
      rcases List.mem_cons.mp hz with rfl | hmem
      · exact hbf2
      · exact htrans x y z hbf2 (hy z hmem)

theorem sortStable_pairwise (bf : α → α → Bool)
    (hasym : ∀ a b, bf a b = true → bf b a = false)
    (htrans : ∀ a b c, bf b a = false → bf c b = false → bf c a = false) :
    ∀ l : List α, (sortStable bf l).Pairwise (fun a b => bf b a = false) := by
  intro l
  induction l with
  | nil => simp [sortStable]
  | cons x xs ih =>
    rw [sortStable]
    exact insertStable_pairwise bf hasym htrans x _ ih

theorem filter_insertStable_pos (bf : α → α → Bool) (p : α → Bool) (x : α)
    (hpx : p x = true) (h : ∀ y, p y = true → bf y x = false) :
    ∀ l : List α, (insertStable bf x l).filter p = x :: l.filter p := by
  intro l
  induction l with
  | nil => simp [insertStable, hpx]
  | cons y ys ih =>
    rw [insertStable]
    by_cases hbf : bf y x = true
    · have hpy : p y = false := by
        cases hp : p y
        · rfl
        · rw [h y hp] at hbf
          exact absurd hbf (by simp)
      rw [if_pos hbf, List.filter_cons, List.filter_cons, hpy]
      simpa using ih
    · rw [if_neg hbf, List.filter_cons, hpx]
      rfl

theorem filter_insertStable_neg (bf : α → α → Bool) (p : α → Bool) (x : α)
    (hpx : p x = false) :
    ∀ l : List α, (insertStable bf x l).filter p = l.filter p := by
  intro l
  induction l with
  | nil => simp [insertStable, hpx]
  | cons y ys ih =>
    rw [insertStable]
    by_cases hbf : bf y x = true
    · rw [if_pos hbf, List.filter_cons, List.filter_cons]
      rw [ih]
    · rw [if_neg hbf, List.filter_cons, hpx]
      rfl

/-- Stability of the sort: the elements tied under the comparator keep
their input order — restricting the output to the elements satisfying any
predicate `p` on which the comparator never strictly orders (e.g. "date
equals c") reproduces exactly the input restriction. -/
theorem sortStable_filter (bf : α → α → Bool) (p : α → Bool)
    (hkey : ∀ a b, p a = true → p b = true → bf a b = false) :
    ∀ l : List α, (sortStable bf l).filter p = l.filter p := by
  intro l
  induction l with
  | nil => rfl
  | cons x xs ih =>
    rw [sortStable]
    by_cases hpx : p x = true
    · rw [filter_insertStable_pos bf p x hpx (fun y hy => hkey y x hy hpx), ih,
        List.filter_cons, hpx]
      rfl
    · have hpx2 : p x = false := by
        cases hp : p x
        · rfl
        · exact absurd hp hpx
      rw [filter_insertStable_neg bf p x hpx2, ih, List.filter_cons, hpx2]
      rfl

theorem perm_any_eq (p : α → Bool) {l1 l2 : List α} (h : l1.Perm l2) :
    l1.any p = l2.any p := by
  cases hb : l2.any p
  · rw [List.any_eq_false] at hb ⊢
    intro x hx
    exact hb x (h.mem_iff.mp hx)
  · rw [List.any_eq_true] at hb ⊢
    obtain ⟨x, hx, hp⟩ := hb
    exact ⟨x, h.mem_iff.mpr hx, hp⟩

/-! ## Timeline aggregation (claim C8) -/

/-- The display kind tag of a merged timeline entry. -/
inductive EvKind where
  | weight
  | vaccine
  | deworming
deriving DecidableEq, Repr

/-- A row of the `weight_history` table (the fields the aggregations
read). -/
structure WeightRow where
  id : String
  date : CDate
  weight : Rat
  notes : Option String
deriving DecidableEq, Repr

/-- A row of the `vaccinations` table (the fields the aggregation
reads). -/
structure VaccineRow where
  id : String
  date : CDate
  vaccineType : String
  notes : Option String
deriving DecidableEq, Repr

/-- A row of the `dewormings` table (the fields the aggregation reads). -/
structure DewormingRow where
  id : String
  date : CDate
  dewormingType : String
  notes : Option String
deriving DecidableEq, Repr

/-- A merged timeline entry as pushed by `fetchAllEvents`.  The rendered
title, icon and color are presentational and omitted; the merge and its
ordering read only the kind, the date (and carry the notes as the
description). -/
structure TimelineEvent where
  id : String
  kind : EvKind
  date : CDate
  description : Option String
deriving DecidableEq, Repr

def weightEvent (r : WeightRow) : TimelineEvent :=
  ⟨r.id, .weight, r.date, r.notes⟩

def vaccineEvent (r : VaccineRow) : TimelineEvent :=
  ⟨r.id, .vaccine, r.date, r.notes⟩

def dewormingEvent (r : DewormingRow) : TimelineEvent :=
  ⟨r.id, .deworming, r.date, r.notes⟩

/-- The merge of `fetchAllEvents` (TimelineTab.tsx 70-118): push all
weight entries, then all vaccine entries, then all deworming entries, then
`allEvents.sort((a, b) => dateB.getTime() - dateA.getTime())` — a stable
descending sort by date (the `new Date(...)` values of the `YYYY-MM-DD`
strings are all UTC midnights, so their numeric order is the calendar
order `cdLt`). -/
def fetchAllEvents (weights : List WeightRow) (vaccines : List VaccineRow)
    (dewormings : List DewormingRow) : List TimelineEvent :=
  sortStable (fun a b => cdLt b.date a.date)
    (weights.map weightEvent ++ vaccines.map vaccineEvent ++
      dewormings.map dewormingEvent)

/-- C8: the timeline aggregation merges exactly the weight, vaccine and
deworming entries (a permutation of their concatenation), sorted
descending by date, with same-date entries kept stably in insertion order
(restricting to any fixed date reproduces the input restriction); in
particular one WeightRecord on 2024-01-10, one Vaccine on 2024-01-10 and
one Deworming on 2024-02-01 merge to
[Deworming(2024-02-01), WeightRecord(2024-01-10), Vaccine(2024-01-10)]. -/
theorem c8_timeline_merge :
    (∀ (ws : List WeightRow) (vs : List VaccineRow) (ds : List DewormingRow),
        (fetchAllEvents ws vs ds).Perm
            (ws.map weightEvent ++ vs.map vaccineEvent ++
              ds.map dewormingEvent) ∧
          (fetchAllEvents ws vs ds).Pairwise
            (fun a b => cdLt a.date b.date = false) ∧
          ∀ c : CDate,
            (fetchAllEvents ws vs ds).filter (fun e => e.date == c) =
              (ws.map weightEvent ++ vs.map vaccineEvent ++
                ds.map dewormingEvent).filter (fun e => e.date == c)) ∧
      fetchAllEvents [⟨"w1", ⟨2024, 1, 10⟩, 5, none⟩]
          [⟨"v1", ⟨2024, 1, 10⟩, "Rabies", none⟩]
          [⟨"d1", ⟨2024, 2, 1⟩, "Drontal", none⟩] =
        [dewormingEvent ⟨"d1", ⟨2024, 2, 1⟩, "Drontal", none⟩,
          weightEvent ⟨"w1", ⟨2024, 1, 10⟩, 5, none⟩,
          vaccineEvent ⟨"v1", ⟨2024, 1, 10⟩, "Rabies", none⟩] := by
  constructor
  · intro ws vs ds
    refine ⟨sortStable_perm _ _, ?_, ?_⟩
    · have h := sortStable_pairwise
        (fun (a b : TimelineEvent) => cdLt b.date a.date)
        (fun a b h => cdLt_asymm _ _ h)
        (fun a b c h1 h2 => cdLt_neg_trans _ _ _ h1 h2)
        (ws.map weightEvent ++ vs.map vaccineEvent ++ ds.map dewormingEvent)
      exact h
    · intro c
      apply sortStable_filter
      intro a b ha hb
      rw [beq_iff_eq] at ha hb
      rw [hb, ha, cdLt_irrefl]
  · decide

/-! ## Weight aggregation with the synthetic baseline (claim C9) -/

/-- The fields of a `pets` row read by the WeightTab aggregation: the
optional baseline `weight` and the date part of `created_at`
(`timestampToDateString` splits the ISO timestamp on 'T'; `createdOn` is
exactly that date part). -/
structure Pet where
  id : String
  weight : Option Rat
  createdOn : CDate
deriving DecidableEq, Repr

/-- An entry of the `allWeightRecords` display list. -/
structure WeightEntry where
  date : CDate
  weight : Rat
  isInitial : Bool
  id : Option String
deriving DecidableEq, Repr

/-- The `allWeightRecords` aggregation of the WeightTab: if a pet is
selected, carries a non-null weight, and no stored record's date equals
the pet's creation date, push one synthetic `isInitial` entry; then push
every stored record; then sort ascending by date
(`sort((a, b) => dateA - dateB)`, stable). -/
def allWeightRecords (selectedPet : Option Pet)
    (weightRecords : List WeightRow) : List WeightEntry :=
  let base : List WeightEntry :=
    match selectedPet with
    | some pet =>
      match pet.weight with
      | some w =>
        if weightRecords.any (fun r => r.date == pet.createdOn) then []
        else [⟨pet.createdOn, w, true, none⟩]
      | none => []
    | none => []
  let entries := base ++
    weightRecords.map (fun r => ⟨r.date, r.weight, false, some r.id⟩)
  sortStable (fun a b => cdLt a.date b.date) entries

/-- C9: the synthetic initial-weight entry appears in the aggregated
series exactly when the pet carries a non-null weight AND no stored
WeightRecord is dated exactly on the pet's creation date; when such a
record exists, no synthetic entry is added. -/
theorem c9_synthetic_baseline :
    ∀ (pet : Pet) (rs : List WeightRow),
      (allWeightRecords (some pet) rs).any (fun e => e.isInitial) =
        (pet.weight.isSome && !(rs.any (fun r => r.date == pet.createdOn))) := by
  intro pet rs
  unfold allWeightRecords
  rw [perm_any_eq _ (sortStable_perm _ _), List.any_append]
  have hrest : (rs.map (fun r : WeightRow =>
      (⟨r.date, r.weight, false, some r.id⟩ : WeightEntry))).any
        (fun e => e.isInitial) = false := by
    rw [List.any_eq_false]
    intro e he
    rw [List.mem_map] at he
    obtain ⟨r, -, rfl⟩ := he
    simp
  rw [hrest, Bool.or_false]
  cases hw : pet.weight with
  | none => simp [hw]
  | some w =>
    by_cases hrec : rs.any (fun r => r.date == pet.createdOn) = true
    · simp [hw, hrec]
    · have hrec2 : rs.any (fun r => r.date == pet.createdOn) = false := by
        cases h : rs.any (fun r => r.date == pet.createdOn)
        · rfl
        · exact absurd h hrec
      simp [hw, hrec2]
